import Mathlib

/-!
Verification development for the Path-Wise learning-path application.

The definitions below are shallow embeddings of the application's core
logic: the AI-response normalizer (`cleanJsonResponse`), the response-shape
handling of the request executor (`geminiExtractContent`,
`geminiNotJsonCheck`), the generation facade (`generateQuestions`,
`generateRoadmap`), and the progress aggregation functions
(`isLessonCompleted`, `getLessonScore`, `isLessonUnlocked`,
`getWeekProgress`, `completeTest`).  Text is modelled as `List Char`,
JavaScript numbers as `ℚ`, and JavaScript `undefined`/`null` fields as
`Option`.
-/

/-- Whitespace predicate used by the JavaScript `String.prototype.trim`
(restricted to the ASCII whitespace characters that matter here). -/
def isWS (c : Char) : Bool :=
  c = ' ' || c = '\t' || c = '\n' || c = '\r' || c = '\x0b' || c = '\x0c'

/-- Drop leading whitespace, as the leading half of `trim`. -/
def jsTrimL (l : List Char) : List Char := l.dropWhile isWS

/-- Drop trailing whitespace, as the trailing half of `trim`. -/
def jsTrimR (l : List Char) : List Char := (l.reverse.dropWhile isWS).reverse

/-- JavaScript `content.trim()`: drop whitespace at both ends. -/
def jsTrim (l : List Char) : List Char := jsTrimR (jsTrimL l)

/-- Index of the first occurrence of `c` (JavaScript `indexOf`, with
`none` standing for `-1`). -/
def firstIdx (c : Char) : List Char → Option Nat
  | [] => none
  | a :: l => if a = c then some 0 else (firstIdx c l).map (· + 1)

/-- Index of the last occurrence of `c` (JavaScript `lastIndexOf`, with
`none` standing for `-1`). -/
def lastIdx (c : Char) (l : List Char) : Option Nat :=
  (firstIdx c l.reverse).map (fun i => l.length - 1 - i)

/-- The match of the greedy regex `o[\s\S]*c` (for `o`,`c` the opening and
closing delimiter): it exists exactly when the first occurrence of `o`
precedes the last occurrence of `c`, and then spans from that first `o` to
that last `c`.  Returns the match index and the matched slice, mirroring
`String.prototype.match` in `cleanJsonResponse`. -/
def spanMatch (o c : Char) (l : List Char) : Option (Nat × List Char) :=
  (firstIdx o l).bind fun f =>
    (lastIdx c l).bind fun g =>
      if f < g then some (f, (l.drop f).take (g + 1 - f)) else none

/-- Fallback bracket extraction of `cleanJsonResponse` (lines 40-45 of the
source): slice from the first `[` to the last `]` when the latter is
strictly later, otherwise return the text unchanged. -/
def fallbackBrackets (cleaned : List Char) : List Char :=
  (firstIdx '[' cleaned).elim cleaned fun fb =>
    (lastIdx ']' cleaned).elim cleaned fun lb =>
      if fb < lb then (cleaned.drop fb).take (lb + 1 - fb) else cleaned

/-- Fallback brace extraction of `cleanJsonResponse` (lines 32-46 of the
source): slice from the first `\x7b` to the last `\x7d` when the latter is
strictly later, otherwise fall through to the bracket fallback. -/
def fallbackExtract (cleaned : List Char) : List Char :=
  (firstIdx '\x7b' cleaned).elim (fallbackBrackets cleaned) fun fb =>
    (lastIdx '\x7d' cleaned).elim (fallbackBrackets cleaned) fun lb =>
      if fb < lb then (cleaned.drop fb).take (lb + 1 - fb) else fallbackBrackets cleaned

/-- Span selection of `cleanJsonResponse` (lines 22-47 of the source): the
array span wins when it exists and either no object span exists or the
array span starts earlier; otherwise the object span; otherwise the
fallback logic. -/
def extractJson (cleaned : List Char) : List Char :=
  (spanMatch '[' ']' cleaned).elim
    ((spanMatch '\x7b' '\x7d' cleaned).elim (fallbackExtract cleaned) fun o => o.2)
    fun a =>
      (spanMatch '\x7b' '\x7d' cleaned).elim a.2 fun o =>
        if a.1 < o.1 then a.2 else o.2

/-- Fence stripping and trimming of `cleanJsonResponse` (lines 6-19 of the
source): trim, strip a leading ```` ```json ```` or ```` ``` ```` marker,
strip a trailing ```` ``` ```` marker, trim again. -/
def stripClean (content : List Char) : List Char :=
  let c0 := jsTrim content
  let c1 :=
    if ("```json".toList).isPrefixOf c0 then c0.drop 7
    else if ("```".toList).isPrefixOf c0 then c0.drop 3
    else c0
  let c2 := if ("```".toList).isSuffixOf c1 then c1.take (c1.length - 3) else c1
  jsTrim c2

/-- The response normalizer `cleanJsonResponse` of the source: fence
stripping and trimming followed by JSON-span extraction. -/
def cleanJsonResponse (content : List Char) : List Char :=
  extractJson (stripClean content)

/-- Modelled from the spec: JSON values as decoded by the host `JSON.parse`
and produced by `JSON.stringify` (the external decoder/encoder the
Executor delegates to). -/
inductive Json where
  | null : Json
  | bool (b : Bool) : Json
  | num (n : Int) : Json
  | str (s : List Char) : Json
  | arr (xs : List Json) : Json
  | obj (fields : List (List Char × Json)) : Json

/-- Whether a decoded value is an ordered sequence (`Array.isArray`). -/
def Json.isArr : Json → Bool
  | .arr _ => true
  | _ => false

/-- Whether a decoded value is an object. -/
def Json.isObj : Json → Bool
  | .obj _ => true
  | _ => false

/-- String-body escaping of the host `JSON.stringify`. -/
def escChar (c : Char) : List Char :=
  if c = '"' then ['\\', '"'] else if c = '\\' then ['\\', '\\'] else [c]

/-- Escape a whole string body. -/
def escapeStr (s : List Char) : List Char := (s.map escChar).flatten

mutual

/-- Modelled from the spec: the host `JSON.stringify` serialization (no
added whitespace), used in the round-trip property. -/
def stringify : Json → List Char
  | .null => "null".toList
  | .bool true => "true".toList
  | .bool false => "false".toList
  | .num n => (toString n).toList
  | .str s => '"' :: (escapeStr s ++ ['"'])
  | .arr xs => '[' :: (stringifyArr xs ++ [']'])
  | .obj fs => '\x7b' :: (stringifyObj fs ++ ['\x7d'])

/-- Comma-separated serialization of array elements. -/
def stringifyArr : List Json → List Char
  | [] => []
  | [x] => stringify x
  | x :: y :: xs => stringify x ++ ',' :: stringifyArr (y :: xs)

/-- Comma-separated serialization of object fields. -/
def stringifyObj : List (List Char × Json) → List Char
  | [] => []
  | [(k, v)] => '"' :: (escapeStr k ++ ['"', ':'] ++ stringify v)
  | (k, v) :: f :: fs =>
      ('"' :: (escapeStr k ++ ['"', ':'] ++ stringify v)) ++ ',' :: stringifyObj (f :: fs)

end

/-- Modelled from the spec: wrapping a payload in a ```` ```json ````
markdown code fence, as in the round-trip testable property. -/
def fenceJson (s : List Char) : List Char :=
  '\x60' :: '\x60' :: '\x60' :: 'j' :: 's' :: 'o' :: 'n' :: '\n' ::
    (s ++ ['\n', '\x60', '\x60', '\x60'])

/-- Modelled from the spec: wrapping a payload in a plain ```` ``` ````
markdown code fence (no language tag). -/
def fencePlain (s : List Char) : List Char :=
  '\x60' :: '\x60' :: '\x60' :: '\n' :: (s ++ ['\n', '\x60', '\x60', '\x60'])

/-- One `parts` entry of the generation endpoint's response; `text` is
`none` when the field is absent (`undefined`). -/
structure GeminiPart where
  text : Option (List Char)

/-- The `content` object of one candidate; `parts` is `none` when absent. -/
structure GeminiContent where
  parts : Option (List GeminiPart)

/-- One candidate output; `content` is `none` when absent. -/
structure GeminiCandidate where
  content : Option GeminiContent

/-- The JSON body of a successful transport response; `candidates` is
`none` when absent. -/
structure GeminiResponse where
  candidates : Option (List GeminiCandidate)

/-- Failure taxonomy of the Bounded Request Executor.  `typeError` models
an uncaught JavaScript `TypeError` (reading a property of `undefined`),
which is a distinct failure from the explicit
`Invalid response structure from AI` error (`invalidResponseShape`). -/
inductive ExecError where
  | timeout
  | transportError
  | invalidResponseShape
  | typeError
  | notJson
  | parseError
deriving DecidableEq

/-- Candidate-text extraction of `makeGeminiRequest` (lines 85-89 of the
source).  The explicit check covers only `data.candidates`,
`data.candidates[0]` and `data.candidates[0].content`; the subsequent
accesses `content.parts[0].text` and `content.trim()` are unguarded, so a
missing `parts` array, an empty `parts`, or a first part with no `text`
raises a JavaScript `TypeError` (modelled by `ExecError.typeError`)
instead of the explicit shape error. -/
def geminiExtractContent (data : GeminiResponse) : Except ExecError (List Char) :=
  match data.candidates with
  | none => .error .invalidResponseShape
  | some [] => .error .invalidResponseShape
  | some (c :: _) =>
    match c.content with
    | none => .error .invalidResponseShape
    | some content =>
      match content.parts with
      | none => .error .typeError
      | some [] => .error .typeError
      | some (p :: _) =>
        match p.text with
        | none => .error .typeError
        | some t => .ok t

/-- The `Invalid JSON response from AI` check of `makeGeminiRequest`
(lines 92-94 of the source): the normalized text is rejected when it is
empty (falsy) or starts with neither `[` nor `\x7b`. -/
def geminiNotJsonCheck (s : List Char) : Bool :=
  s.isEmpty || (!(s.head? == some '[') && !(s.head? == some '\x7b'))

/-- Failure type of the Generation Facade: every internal failure is
wrapped into one user-facing `GenerationFailed` message per use case. -/
inductive GenError where
  | generationFailed
deriving DecidableEq

/-- Post-decode behavior of `generateQuestions` (lines 128-135 of the
source): an executor failure is wrapped into `GenerationFailed`, a decoded
array is returned whole, and a decoded non-array is coerced to `[]` by
`Array.isArray(questions) ? questions : []`. -/
def generateQuestions (result : Except ExecError Json) : Except GenError (List Json) :=
  match result with
  | .error _ => .error .generationFailed
  | .ok v =>
    match v with
    | .arr xs => .ok xs
    | _ => .ok []

/-- Post-decode behavior of `generateRoadmap` (lines 168-180 of the
source): an executor failure is wrapped into `GenerationFailed`, a decoded
array is returned whole, and a decoded non-array raises
`Invalid roadmap structure - not an array`, caught and rethrown as
`GenerationFailed`. -/
def generateRoadmap (result : Except ExecError Json) : Except GenError (List Json) :=
  match result with
  | .error _ => .error .generationFailed
  | .ok v =>
    match v with
    | .arr xs => .ok xs
    | _ => .error .generationFailed

/-- A row of the `lessons` table, restricted to the fields the progress
computations read. -/
structure LessonRow where
  id : String
  week_number : Int
deriving DecidableEq

/-- A row of the `lesson_completions` table, restricted to the fields the
progress computations read; `score` is `none` when the column is null and
`completed_at` is the completion timestamp. -/
structure CompletionRow where
  lesson_id : String
  score : Option ℚ
  completed_at : Nat
deriving DecidableEq

/-- `isLessonCompleted` of `LessonsList.tsx` (lines 81-83) and
`RoadmapView.tsx` (lines 78-80): some completion record matches the
lesson id. -/
def isLessonCompleted (completions : List CompletionRow) (lessonId : String) : Bool :=
  completions.any fun c => c.lesson_id == lessonId

/-- `getLessonScore` of `LessonsList.tsx` (lines 85-88): the score of the
first matching record in list order (`completions.find`), with
`?.score || 0` collapsing a missing or zero score to `0`. -/
def getLessonScore (completions : List CompletionRow) (lessonId : String) : ℚ :=
  match completions.find? (fun c => c.lesson_id == lessonId) with
  | some c => c.score.getD 0
  | none => 0

/-- `isLessonUnlocked` of `LessonsList.tsx` (lines 90-93): index `0` is
unlocked; index `i > 0` is unlocked iff the lesson at `i - 1` is
completed.  `none` models the JavaScript crash on
`lessons[lessonIndex - 1].id` when `i - 1` is out of bounds. -/
def isLessonUnlocked (lessons : List LessonRow) (completions : List CompletionRow)
    (i : Nat) : Option Bool :=
  if i = 0 then some true
  else (lessons.get? (i - 1)).map fun l => isLessonCompleted completions l.id

/-- JavaScript `Math.round`: round half away from zero upwards, i.e.
`⌊x + 1/2⌋`. -/
def jsRound (q : ℚ) : Int := (q + 1 / 2).floor

/-- `getWeekProgress` of `RoadmapView.tsx` (lines 82-86): filter the
lessons of the week, count the completed ones, and return
`Math.round((completed / total) * 100)`, or `0` when the week has no
lessons. -/
def getWeekProgress (lessons : List LessonRow) (completions : List CompletionRow)
    (weekNumber : Int) : Int :=
  let weekLessons := lessons.filter fun l => l.week_number == weekNumber
  let completedLessons := weekLessons.filter fun l => isLessonCompleted completions l.id
  if 0 < weekLessons.length then
    jsRound (((completedLessons.length : ℚ) / (weekLessons.length : ℚ)) * 100)
  else 0

/-- Modelled from the spec: `weekProgressPercent(weekLessons, completions)`
returns `round(100 * completedInWeek / totalInWeek)`, and `0` when the
week has no lessons. -/
def weekProgressPercent (weekLessons : List LessonRow)
    (completions : List CompletionRow) : Int :=
  if weekLessons.length = 0 then 0
  else
    jsRound ((100 * ((weekLessons.filter fun l =>
      isLessonCompleted completions l.id).length : ℚ)) / (weekLessons.length : ℚ))

/-- A row of the `user_progress` table, restricted to the fields
`completeTest` reads and writes; `average_accuracy` is `none` when the
column is null (the source guards with `|| 0`). -/
structure ProgressRow where
  completed_lessons : Nat
  average_accuracy : Option ℚ
  total_time_spent : Nat
deriving DecidableEq

/-- The `user_progress` update of `completeTest` in `LessonView.tsx`
(lines 148-162): the new average is
`(oldAverageAccuracy * oldCompletedLessons + finalScore) / newCompletedLessons`
computed from the previous row only, the completed count is incremented,
and 30 minutes are added to the time spent. -/
def completeTest (p : ProgressRow) (finalScore : ℚ) : ProgressRow :=
  let oldCompletedLessons := p.completed_lessons
  let oldAverageAccuracy := p.average_accuracy.getD 0
  let newCompletedLessons := oldCompletedLessons + 1
  let newAverageAccuracy :=
    (oldAverageAccuracy * (oldCompletedLessons : ℚ) + finalScore) / (newCompletedLessons : ℚ)
  { completed_lessons := newCompletedLessons
    average_accuracy := some newAverageAccuracy
    total_time_spent := p.total_time_spent + 30 }

/-- Modelled from the spec: `updateRunningAccuracy(oldAvg, oldCount,
newScore)` returns `(oldAvg * oldCount + newScore) / (oldCount + 1)`. -/
def updateRunningAccuracy (oldAvg : ℚ) (oldCount : Nat) (newScore : ℚ) : ℚ :=
  (oldAvg * (oldCount : ℚ) + newScore) / ((oldCount : ℚ) + 1)

/-- The latest record of a list by completion timestamp (earlier entries
win ties, matching a stable maximum scan). -/
def mostRecent (comps : List CompletionRow) : Option CompletionRow :=
  comps.foldl
    (fun acc r =>
      match acc with
      | none => some r
      | some a => if a.completed_at < r.completed_at then some r else some a)
    none

/-- Modelled from the spec: `scoreFor(lessonId, completions)` is the most
recent matching record's score (by completion time), or `0` if none. -/
def scoreForSpec (completions : List CompletionRow) (lessonId : String) : ℚ :=
  match mostRecent (completions.filter fun c => c.lesson_id == lessonId) with
  | some c => c.score.getD 0
  | none => 0

/-! ### Structural lemmas about the normalizer -/

theorem firstIdx_cons (a c : Char) (l : List Char) :
    firstIdx c (a :: l) = if a = c then some 0 else (firstIdx c l).map (· + 1) := rfl

theorem firstIdx_cons_self (c : Char) (l : List Char) : firstIdx c (c :: l) = some 0 := by
  rw [firstIdx_cons, if_pos rfl]

theorem firstIdx_eq_some {c : Char} {l : List Char} {i : Nat} (h : firstIdx c l = some i) :
    ∃ u v, l = u ++ c :: v ∧ u.length = i ∧ ∀ a ∈ u, a ≠ c := by
  induction l generalizing i with
  | nil => simp [firstIdx] at h
  | cons a t ih =>
    rw [firstIdx_cons] at h
    by_cases hac : a = c
    · rw [if_pos hac] at h
      obtain rfl : (0 : Nat) = i := Option.some_injective _ h
      exact ⟨[], t, by rw [hac]; rfl, rfl, by simp⟩
    · rw [if_neg hac] at h
      obtain ⟨j, hj, rfl⟩ := Option.map_eq_some'.mp h
      obtain ⟨u, v, rfl, hlen, hmem⟩ := ih hj
      refine ⟨a :: u, v, rfl, by simp [hlen], ?_⟩
      intro b hb
      rcases List.mem_cons.mp hb with rfl | hb
      · exact hac
      · exact hmem b hb

theorem firstIdx_pos_of_head_ne {b c : Char} (hbc : b ≠ c) {t : List Char} {i : Nat}
    (h : firstIdx c (b :: t) = some i) : 0 < i := by
  rw [firstIdx_cons, if_neg hbc] at h
  obtain ⟨j, _, rfl⟩ := Option.map_eq_some'.mp h
  omega

theorem lastIdx_eq_some {c : Char} {l : List Char} {g : Nat} (h : lastIdx c l = some g) :
    ∃ u v, l = u ++ c :: v ∧ u.length = g ∧ ∀ a ∈ v, a ≠ c := by
  unfold lastIdx at h
  obtain ⟨i, hi, hg⟩ := Option.map_eq_some'.mp h
  obtain ⟨u, v, hrev, hlen, hmem⟩ := firstIdx_eq_some hi
  have hl : l = v.reverse ++ c :: u.reverse := by
    have h2 := congrArg List.reverse hrev
    rw [List.reverse_reverse] at h2
    rw [h2, List.reverse_append, List.reverse_cons, List.append_assoc]
    rfl
  have hlength : l.length = u.length + 1 + v.length := by
    have := congrArg List.length hrev
    simp at this
    omega
  refine ⟨v.reverse, u.reverse, hl, ?_, ?_⟩
  · simp
    omega
  · intro a ha
    exact hmem a (List.mem_reverse.mp ha)

theorem lastIdx_concat_self (c : Char) (l : List Char) :
    lastIdx c (l ++ [c]) = some l.length := by
  unfold lastIdx
  rw [List.reverse_append]
  show ((firstIdx c (c :: l.reverse)).map fun i => (l ++ [c]).length - 1 - i) = some l.length
  rw [firstIdx_cons_self]
  simp

theorem spanMatch_eq_some {o c : Char} {l s : List Char} {f : Nat}
    (h : spanMatch o c l = some (f, s)) :
    firstIdx o l = some f ∧
      ∃ g, lastIdx c l = some g ∧ f < g ∧ s = (l.drop f).take (g + 1 - f) := by
  unfold spanMatch at h
  rcases hf : firstIdx o l with _ | f' <;> rw [hf] at h
  · simp at h
  · rw [Option.some_bind] at h
    rcases hg : lastIdx c l with _ | g' <;> rw [hg] at h
    · simp at h
    · rw [Option.some_bind] at h
      by_cases hlt : f' < g'
      · rw [if_pos hlt] at h
        have h1 : f' = f ∧ (l.drop f').take (g' + 1 - f') = s :=
          Prod.mk.injEq .. ▸ Option.some_injective _ h
        obtain ⟨rfl, h2⟩ := h1
        exact ⟨rfl, g', rfl, hlt, h2.symm⟩
      · rw [if_neg hlt] at h
        exact absurd h (by simp)

theorem spanMatch_shape {o c : Char} {l s : List Char} {f : Nat}
    (h : spanMatch o c l = some (f, s)) : ∃ m, s = o :: (m ++ [c]) := by
  obtain ⟨hf, g, hg, hfg, hs⟩ := spanMatch_eq_some h
  obtain ⟨u1, v1, rfl, hu1, _⟩ := firstIdx_eq_some hf
  obtain ⟨u2, v2, heq, hu2, _⟩ := lastIdx_eq_some hg
  have hdrop : (u1 ++ o :: v1).drop f = o :: v1 := by
    rw [← hu1]
    exact List.drop_left u1 (o :: v1)
  have hv1 : v1 = u2.drop (f + 1) ++ c :: v2 := by
    have h1 : (u1 ++ o :: v1).drop (f + 1) = v1 := by
      have hre : u1 ++ o :: v1 = (u1 ++ [o]) ++ v1 := by simp
      have hlen : (u1 ++ [o]).length = f + 1 := by simp [hu1]
      rw [hre, ← hlen]
      exact List.drop_left _ _
    have h2 : (u2 ++ c :: v2).drop (f + 1) = u2.drop (f + 1) ++ c :: v2 :=
      List.drop_append_of_le_length (by omega)
    rw [heq, h2] at h1
    exact h1.symm
  have hw : (u2.drop (f + 1)).length = g - f - 1 := by
    rw [List.length_drop]
    omega
  refine ⟨u2.drop (f + 1), ?_⟩
  obtain ⟨k, hk⟩ : ∃ k, g + 1 - f = k + 2 := ⟨g - f - 1, by omega⟩
  have hwk : (u2.drop (f + 1)).length = k := by omega
  rw [hs, hdrop, hk]
  have h1 : (o :: v1).take (k + 2) = o :: v1.take (k + 1) := rfl
  rw [h1, hv1, List.take_append_eq_append_take,
      List.take_of_length_le (by omega), hwk]
  have h2 : k + 1 - k = 1 := by omega
  rw [h2]
  rfl

theorem spanMatch_self (o c : Char) (m : List Char) :
    spanMatch o c (o :: (m ++ [c])) = some (0, o :: (m ++ [c])) := by
  have h1 : firstIdx o (o :: (m ++ [c])) = some 0 := firstIdx_cons_self ..
  have h2 : lastIdx c (o :: (m ++ [c])) = some (m.length + 1) := by
    have h := lastIdx_concat_self c (o :: m)
    simpa using h
  have h3 : ((o :: (m ++ [c])).drop 0).take (m.length + 1 + 1 - 0) = o :: (m ++ [c]) := by
    rw [List.drop_zero,
        show m.length + 1 + 1 - 0 = (o :: (m ++ [c])).length from by simp,
        List.take_length]
  unfold spanMatch
  rw [h1, Option.some_bind, h2, Option.some_bind, if_pos (Nat.succ_pos _)]
  exact congrArg (fun t => some ((0 : Nat), t)) h3

theorem extractJson_self_arr (m : List Char) :
    extractJson ('[' :: (m ++ [']'])) = '[' :: (m ++ [']']) := by
  have harr := spanMatch_self '[' ']' m
  unfold extractJson
  rw [harr, Option.elim_some]
  rcases hobj : spanMatch '\x7b' '\x7d' ('[' :: (m ++ [']'])) with _ | ⟨oi, os⟩
  · rw [Option.elim_none]
  · have h0 : 0 < oi :=
      firstIdx_pos_of_head_ne (by decide) (spanMatch_eq_some hobj).1
    rw [Option.elim_some]
    exact if_pos h0

theorem extractJson_self_obj (m : List Char) :
    extractJson ('\x7b' :: (m ++ ['\x7d'])) = '\x7b' :: (m ++ ['\x7d']) := by
  have hobj := spanMatch_self '\x7b' '\x7d' m
  unfold extractJson
  rw [hobj]
  rcases harr : spanMatch '[' ']' ('\x7b' :: (m ++ ['\x7d'])) with _ | ⟨ai, as⟩
  · rw [Option.elim_none, Option.elim_some]
  · rw [Option.elim_some, Option.elim_some]
    exact if_neg (Nat.not_lt_zero ai)

theorem spanMatch_none_cond {o c : Char} {l : List Char} (h : spanMatch o c l = none) :
    ∀ f g, firstIdx o l = some f → lastIdx c l = some g → ¬ f < g := by
  intro f g hf hg hlt
  unfold spanMatch at h
  rw [hf, Option.some_bind, hg, Option.some_bind, if_pos hlt] at h
  cases h

theorem fallbackBrackets_eq_self {l : List Char} (h : spanMatch '[' ']' l = none) :
    fallbackBrackets l = l := by
  unfold fallbackBrackets
  rcases hf : firstIdx '[' l with _ | f
  · rw [Option.elim_none]
  · rw [Option.elim_some]
    rcases hg : lastIdx ']' l with _ | g
    · rw [Option.elim_none]
    · rw [Option.elim_some]
      exact if_neg (spanMatch_none_cond h f g hf hg)

theorem fallbackExtract_eq_self {l : List Char} (hobj : spanMatch '\x7b' '\x7d' l = none)
    (harr : spanMatch '[' ']' l = none) : fallbackExtract l = l := by
  unfold fallbackExtract
  rcases hf : firstIdx '\x7b' l with _ | f
  · rw [Option.elim_none]
    exact fallbackBrackets_eq_self harr
  · rw [Option.elim_some]
    rcases hg : lastIdx '\x7d' l with _ | g
    · rw [Option.elim_none]
      exact fallbackBrackets_eq_self harr
    · rw [Option.elim_some, if_neg (spanMatch_none_cond hobj f g hf hg)]
      exact fallbackBrackets_eq_self harr

theorem extractJson_of_none {l : List Char} (harr : spanMatch '[' ']' l = none)
    (hobj : spanMatch '\x7b' '\x7d' l = none) : extractJson l = l := by
  have h1 : extractJson l = fallbackExtract l := by
    unfold extractJson
    rw [harr, hobj, Option.elim_none, Option.elim_none]
  rw [h1]
  exact fallbackExtract_eq_self hobj harr

/-! ### Trimming and fence-stripping lemmas -/

theorem jsTrimL_cons_of_not {a : Char} (h : isWS a = false) (l : List Char) :
    jsTrimL (a :: l) = a :: l := by
  simp [jsTrimL, List.dropWhile_cons, h]

theorem jsTrimR_concat_of_not {b : Char} (h : isWS b = false) (l : List Char) :
    jsTrimR (l ++ [b]) = l ++ [b] := by
  unfold jsTrimR
  rw [List.reverse_append]
  simp [List.dropWhile_cons, h]

theorem jsTrim_fixed {x y : Char} (hx : isWS x = false) (hy : isWS y = false)
    (m : List Char) : jsTrim (x :: (m ++ [y])) = x :: (m ++ [y]) := by
  unfold jsTrim
  rw [jsTrimL_cons_of_not hx]
  have h1 : x :: (m ++ [y]) = (x :: m) ++ [y] := rfl
  rw [h1, jsTrimR_concat_of_not hy]

theorem dropWhile_head_false {p : Char → Bool} :
    ∀ (l : List Char) {a : Char} {t : List Char}, l.dropWhile p = a :: t → p a = false := by
  intro l
  induction l with
  | nil => intro a t h; cases h
  | cons b u ih =>
    intro a t h
    rw [List.dropWhile_cons] at h
    by_cases hb : p b = true
    · rw [if_pos hb] at h
      exact ih h
    · rw [if_neg hb] at h
      cases h
      simpa using hb

theorem dropWhile_idem (p : Char → Bool) (l : List Char) :
    (l.dropWhile p).dropWhile p = l.dropWhile p := by
  cases h : l.dropWhile p with
  | nil => rfl
  | cons a t =>
    have ha : p a = false := dropWhile_head_false l h
    rw [List.dropWhile_cons, if_neg (by simp [ha])]

theorem jsTrimR_idem (l : List Char) : jsTrimR (jsTrimR l) = jsTrimR l := by
  unfold jsTrimR
  rw [List.reverse_reverse, dropWhile_idem]

theorem jsTrimR_cons_of_not {a : Char} (h : isWS a = false) (t : List Char) :
    ∃ u, jsTrimR (a :: t) = a :: u := by
  unfold jsTrimR
  rw [show (a :: t).reverse = t.reverse ++ [a] from by simp, List.dropWhile_append]
  by_cases he : (t.reverse.dropWhile isWS).isEmpty = true
  · rw [if_pos he]
    exact ⟨[], by simp [List.dropWhile_cons, h]⟩
  · rw [if_neg he]
    exact ⟨(t.reverse.dropWhile isWS).reverse, by simp⟩

theorem jsTrim_idem (l : List Char) : jsTrim (jsTrim l) = jsTrim l := by
  unfold jsTrim
  cases hy : jsTrimL l with
  | nil => rfl
  | cons a t =>
    have ha : isWS a = false := dropWhile_head_false l hy
    obtain ⟨u, hu⟩ := jsTrimR_cons_of_not ha t
    rw [hu, jsTrimL_cons_of_not ha, ← hu]
    exact jsTrimR_idem _

theorem jsTrim_stripClean (t : List Char) : jsTrim (stripClean t) = stripClean t :=
  jsTrim_idem _

theorem isPrefixOf_of_append {l1 l2 : List Char} :
    ∀ {s : List Char}, (l1 ++ l2).isPrefixOf s = true → l1.isPrefixOf s = true := by
  induction l1 with
  | nil => intro s _; simp [List.isPrefixOf]
  | cons a t ih =>
    intro s h
    cases s with
    | nil => cases h
    | cons b u =>
      have h' : ((a == b) && (t ++ l2).isPrefixOf u) = true := h
      have h2 := Bool.and_eq_true .. ▸ h'
      show ((a == b) && t.isPrefixOf u) = true
      rw [h2.1, ih h2.2]
      rfl

theorem isPrefixOf_cons_of_ne {a b : Char} (h : a ≠ b) (l1 l2 : List Char) :
    (a :: l1).isPrefixOf (b :: l2) = false := by
  show ((a == b) && l1.isPrefixOf l2) = false
  rw [beq_eq_false_iff_ne.mpr h]
  rfl

theorem isSuffixOf_concat_of_ne {a y : Char} (h : a ≠ y) (l1 l2 : List Char) :
    ((l1 ++ [a]).isSuffixOf (l2 ++ [y])) = false := by
  show ((l1 ++ [a]).reverse.isPrefixOf (l2 ++ [y]).reverse) = false
  rw [List.reverse_append, List.reverse_append]
  exact isPrefixOf_cons_of_ne h _ _

theorem isSuffixOf_three_ticks (l : List Char) :
    ("```".toList).isSuffixOf (l ++ ['\x60', '\x60', '\x60']) = true := by
  show (("```".toList).reverse.isPrefixOf (l ++ ['\x60', '\x60', '\x60']).reverse) = true
  rw [List.reverse_append]
  simp [List.isPrefixOf]

theorem fence_not_isPrefixOf {x : Char} (hx : x ≠ '\x60') (l : List Char) :
    ("```".toList).isPrefixOf (x :: l) = false :=
  isPrefixOf_cons_of_ne (fun h => hx h.symm) _ _

theorem fenceJson_not_isPrefixOf_of {s : List Char}
    (h : ("```".toList).isPrefixOf s = false) :
    ("```json".toList).isPrefixOf s = false := by
  cases hj : ("```json".toList).isPrefixOf s with
  | false => rfl
  | true =>
    have h3 : ("```".toList ++ "json".toList).isPrefixOf s = true := hj
    rw [isPrefixOf_of_append h3] at h
    cases h

theorem stripClean_eq_self {s : List Char} (ht : jsTrim s = s)
    (hp : ("```".toList).isPrefixOf s = false)
    (hs : ("```".toList).isSuffixOf s = false) : stripClean s = s := by
  simp only [stripClean]
  rw [ht, fenceJson_not_isPrefixOf_of hp, hp]
  simp only [Bool.false_eq_true, if_false]
  rw [hs]
  simp only [Bool.false_eq_true, if_false]
  exact ht

theorem stripClean_bare {x y : Char} (hx : isWS x = false) (hy : isWS y = false)
    (hx60 : x ≠ '\x60') (hy60 : y ≠ '\x60') (m : List Char) :
    stripClean (x :: (m ++ [y])) = x :: (m ++ [y]) := by
  refine stripClean_eq_self (jsTrim_fixed hx hy m)
    (fence_not_isPrefixOf hx60 _) ?_
  have h1 : x :: (m ++ [y]) = (x :: m) ++ [y] := rfl
  rw [h1, show ("```".toList) = "``".toList ++ ['\x60'] from rfl]
  exact isSuffixOf_concat_of_ne (fun he => hy60 he.symm) _ _

theorem cleanJsonResponse_bracket (m : List Char) :
    cleanJsonResponse ('[' :: (m ++ [']'])) = '[' :: (m ++ [']']) := by
  unfold cleanJsonResponse
  rw [stripClean_bare (by decide) (by decide) (by decide) (by decide) m]
  exact extractJson_self_arr m

theorem cleanJsonResponse_brace (m : List Char) :
    cleanJsonResponse ('\x7b' :: (m ++ ['\x7d'])) = '\x7b' :: (m ++ ['\x7d']) := by
  unfold cleanJsonResponse
  rw [stripClean_bare (by decide) (by decide) (by decide) (by decide) m]
  exact extractJson_self_obj m

theorem jsTrim_newline_wrap {x y : Char} (hx : isWS x = false) (hy : isWS y = false)
    (m : List Char) :
    jsTrim ('\n' :: ((x :: (m ++ [y])) ++ ['\n'])) = x :: (m ++ [y]) := by
  have hL1 : jsTrimL ('\n' :: ((x :: (m ++ [y])) ++ ['\n'])) = (x :: (m ++ [y])) ++ ['\n'] := by
    show List.dropWhile isWS ('\n' :: ((x :: (m ++ [y])) ++ ['\n'])) = (x :: (m ++ [y])) ++ ['\n']
    rw [List.dropWhile_cons, if_pos (by decide)]
    show List.dropWhile isWS (x :: ((m ++ [y]) ++ ['\n'])) = x :: ((m ++ [y]) ++ ['\n'])
    rw [List.dropWhile_cons, if_neg (by simp [hx])]
  unfold jsTrim
  rw [hL1]
  unfold jsTrimR
  rw [List.reverse_append]
  show (List.dropWhile isWS ('\n' :: (x :: (m ++ [y])).reverse)).reverse = x :: (m ++ [y])
  rw [List.dropWhile_cons, if_pos (by decide)]
  have hsrev : (x :: (m ++ [y])).reverse = y :: (m.reverse ++ [x]) := by simp
  rw [hsrev, List.dropWhile_cons, if_neg (by simp [hy]), ← hsrev, List.reverse_reverse]

theorem fence_tail_clean {x y : Char} (hx : isWS x = false) (hy : isWS y = false)
    (m : List Char) :
    jsTrim
      (if ("```".toList).isSuffixOf
            ('\n' :: ((x :: (m ++ [y])) ++ ['\n', '\x60', '\x60', '\x60'])) = true then
        ('\n' :: ((x :: (m ++ [y])) ++ ['\n', '\x60', '\x60', '\x60'])).take
          (('\n' :: ((x :: (m ++ [y])) ++ ['\n', '\x60', '\x60', '\x60'])).length - 3)
      else '\n' :: ((x :: (m ++ [y])) ++ ['\n', '\x60', '\x60', '\x60']))
    = x :: (m ++ [y]) := by
  have hshape : '\n' :: ((x :: (m ++ [y])) ++ ['\n', '\x60', '\x60', '\x60'])
      = ('\n' :: ((x :: (m ++ [y])) ++ ['\n'])) ++ ['\x60', '\x60', '\x60'] := by
    simp
  rw [hshape, isSuffixOf_three_ticks]
  simp only [if_pos rfl]
  rw [List.take_left' (by simp)]
  exact jsTrim_newline_wrap hx hy m

theorem stripClean_fenceJson {x y : Char} (hx : isWS x = false) (hy : isWS y = false)
    (m : List Char) :
    stripClean (fenceJson (x :: (m ++ [y]))) = x :: (m ++ [y]) := by
  have htrim : jsTrim (fenceJson (x :: (m ++ [y]))) = fenceJson (x :: (m ++ [y])) := by
    have hshape : fenceJson (x :: (m ++ [y]))
        = '\x60' :: (('\x60' :: '\x60' :: 'j' :: 's' :: 'o' :: 'n' :: '\n' ::
            ((x :: (m ++ [y])) ++ ['\n', '\x60', '\x60'])) ++ ['\x60']) := by
      simp [fenceJson]
    rw [hshape, jsTrim_fixed (by decide) (by decide)]
  have hpre : ("```json".toList).isPrefixOf (fenceJson (x :: (m ++ [y]))) = true := by
    simp [fenceJson, List.isPrefixOf]
  have hdrop : (fenceJson (x :: (m ++ [y]))).drop 7
      = '\n' :: ((x :: (m ++ [y])) ++ ['\n', '\x60', '\x60', '\x60']) := rfl
  simp only [stripClean]
  rw [htrim, hpre]
  simp only [if_pos rfl]
  rw [hdrop]
  exact fence_tail_clean hx hy m

theorem stripClean_fencePlain {x y : Char} (hx : isWS x = false) (hy : isWS y = false)
    (m : List Char) :
    stripClean (fencePlain (x :: (m ++ [y]))) = x :: (m ++ [y]) := by
  have htrim : jsTrim (fencePlain (x :: (m ++ [y]))) = fencePlain (x :: (m ++ [y])) := by
    have hshape : fencePlain (x :: (m ++ [y]))
        = '\x60' :: (('\x60' :: '\x60' :: '\n' ::
            ((x :: (m ++ [y])) ++ ['\n', '\x60', '\x60'])) ++ ['\x60']) := by
      simp [fencePlain]
    rw [hshape, jsTrim_fixed (by decide) (by decide)]
  have hprej : ("```json".toList).isPrefixOf (fencePlain (x :: (m ++ [y]))) = false := by
    simp [fencePlain, List.isPrefixOf]
  have hpre : ("```".toList).isPrefixOf (fencePlain (x :: (m ++ [y]))) = true := by
    simp [fencePlain, List.isPrefixOf]
  have hdrop : (fencePlain (x :: (m ++ [y]))).drop 3
      = '\n' :: ((x :: (m ++ [y])) ++ ['\n', '\x60', '\x60', '\x60']) := rfl
  simp only [stripClean]
  rw [htrim, hprej, hpre]
  simp only [Bool.false_eq_true, if_false, if_pos rfl]
  rw [hdrop]
  exact fence_tail_clean hx hy m

/-! ### Claim theorems -/

/-- Helper: the `Invalid JSON response from AI` check fires exactly when the
normalized text does not begin with `[` or `\x7b` (the empty text included). -/
theorem geminiNotJsonCheck_iff (s : List Char) :
    geminiNotJsonCheck s = true ↔ s.head? ≠ some '[' ∧ s.head? ≠ some '\x7b' := by
  cases s with
  | nil => simp [geminiNotJsonCheck]
  | cons a t => simp [geminiNotJsonCheck]

/-- C1: for every progress row — its previous average `a` (null read as 0)
and previous count `c`, the count-0 first completion included — recording a
quiz completion with score `s` stores exactly `(a * c + s) / (c + 1)` as
the new average and `c + 1` as the new count, consuming only the previous
average and count. -/
theorem c1_running_average (p : ProgressRow) (s : ℚ) :
    (completeTest p s).average_accuracy
        = some (updateRunningAccuracy (p.average_accuracy.getD 0) p.completed_lessons s) ∧
    (completeTest p s).completed_lessons = p.completed_lessons + 1 := by
  refine ⟨?_, rfl⟩
  simp only [completeTest, updateRunningAccuracy]
  congr 1
  push_cast
  ring

/-- The update consequently keeps the stored average equal to the exact
mean of all recorded scores: when the previous average was the mean of a
score list, the updated average is the mean with the new score appended. -/
theorem completeTest_preserves_mean (p : ProgressRow) (s : ℚ) (scores : List ℚ)
    (havg : p.average_accuracy = some (scores.sum / (scores.length : ℚ)))
    (hcount : p.completed_lessons = scores.length)
    (hpos : 0 < scores.length) :
    (completeTest p s).average_accuracy
        = some ((scores.sum + s) / ((scores.length : ℚ) + 1)) := by
  have hne : ((scores.length : ℚ)) ≠ 0 :=
    Nat.cast_ne_zero.mpr (Nat.pos_iff_ne_zero.mp hpos)
  simp only [completeTest, havg, hcount, Option.getD_some]
  congr 1
  rw [div_mul_cancel₀ _ hne]
  push_cast
  ring

/-- C2: when the cleaned text carries both a first-to-last-bracket span and
a first-to-last-brace span, the normalizer returns whichever span starts
earlier. -/
theorem c2_earlier_span_wins (content : List Char) (ai oi : Nat) (as os : List Char)
    (harr : spanMatch '[' ']' (stripClean content) = some (ai, as))
    (hobj : spanMatch '\x7b' '\x7d' (stripClean content) = some (oi, os)) :
    (ai < oi → cleanJsonResponse content = as) ∧
    (oi < ai → cleanJsonResponse content = os) := by
  constructor <;> intro h
  · unfold cleanJsonResponse extractJson
    rw [harr, Option.elim_some, hobj, Option.elim_some, if_pos h]
  · unfold cleanJsonResponse extractJson
    rw [harr, Option.elim_some, hobj, Option.elim_some, if_neg (by omega)]

/-- Witness for C2 at the spec's example input. -/
theorem c2_earlier_span_wins_witness :
    spanMatch '[' ']' (stripClean ("[1,2] and \x7b\"x\":1\x7d".toList))
      = some (0, "[1,2]".toList) ∧
    spanMatch '\x7b' '\x7d' (stripClean ("[1,2] and \x7b\"x\":1\x7d".toList))
      = some (10, "\x7b\"x\":1\x7d".toList) ∧
    cleanJsonResponse ("[1,2] and \x7b\"x\":1\x7d".toList) = "[1,2]".toList := by
  refine ⟨by decide, by decide, ?_⟩
  exact (c2_earlier_span_wins ("[1,2] and \x7b\"x\":1\x7d".toList) 0 10
    ("[1,2]".toList) ("\x7b\"x\":1\x7d".toList) (by decide) (by decide)).1 (by decide)

/-- C3 (amended): on a decoded value that is not an array, `generateRoadmap`
fails with `GenerationFailed` but `generateQuestions` coerces the value to
the empty list; on an array, both return it whole. -/
theorem c3_roadmap_fails_questions_coerce (v : Json) (h : v.isArr = false) :
    generateRoadmap (Except.ok v) = Except.error GenError.generationFailed ∧
    generateQuestions (Except.ok v) = Except.ok [] ∧
    ∀ xs : List Json, generateQuestions (Except.ok (Json.arr xs)) = Except.ok xs ∧
      generateRoadmap (Except.ok (Json.arr xs)) = Except.ok xs := by
  have hmain : generateRoadmap (Except.ok v) = Except.error GenError.generationFailed ∧
      generateQuestions (Except.ok v) = Except.ok [] := by
    cases v with
    | arr xs => exact absurd h (by simp [Json.isArr])
    | null => exact ⟨rfl, rfl⟩
    | bool b => exact ⟨rfl, rfl⟩
    | num n => exact ⟨rfl, rfl⟩
    | str s2 => exact ⟨rfl, rfl⟩
    | obj fs => exact ⟨rfl, rfl⟩
  exact ⟨hmain.1, hmain.2, fun xs => ⟨rfl, rfl⟩⟩

/-- Witness for C3 (amended) at the decoded object value. -/
theorem c3_roadmap_fails_questions_coerce_witness :
    generateRoadmap (Except.ok (Json.obj [])) = Except.error GenError.generationFailed ∧
    generateQuestions (Except.ok (Json.obj [])) = Except.ok [] ∧
    ∀ xs : List Json, generateQuestions (Except.ok (Json.arr xs)) = Except.ok xs ∧
      generateRoadmap (Except.ok (Json.arr xs)) = Except.ok xs :=
  c3_roadmap_fails_questions_coerce (Json.obj []) rfl

/-- C3 counterexample: the decoded object is not an array, yet
`generateQuestions` does not fail — it returns the empty list. -/
theorem c3_counterexample :
    Json.isArr (Json.obj []) = false ∧
    generateQuestions (Except.ok (Json.obj [])) = Except.ok [] ∧
    generateQuestions (Except.ok (Json.obj []))
      ≠ Except.error GenError.generationFailed := by
  refine ⟨rfl, rfl, ?_⟩
  intro hcon
  exact Except.noConfusion hcon

/-- C4 (amended): the executor's explicit shape error covers exactly the
missing/empty candidates list and a first candidate without `content`; a
present `content` with missing `parts`, empty `parts`, or a first part
without `text` instead crashes with a generic `TypeError`. -/
theorem c4_shape_check_coverage (d : GeminiResponse) :
    (geminiExtractContent d = Except.error ExecError.invalidResponseShape ↔
      d.candidates = none ∨ d.candidates = some [] ∨
        ∃ c cs, d.candidates = some (c :: cs) ∧ c.content = none) ∧
    (geminiExtractContent d = Except.error ExecError.typeError ↔
      ∃ c cs ct, d.candidates = some (c :: cs) ∧ c.content = some ct ∧
        (ct.parts = none ∨ ct.parts = some [] ∨
          ∃ p ps, ct.parts = some (p :: ps) ∧ p.text = none)) := by
  obtain ⟨cands⟩ := d
  rcases cands with _ | cl
  · simp [geminiExtractContent]
  · rcases cl with _ | ⟨c, cs⟩
    · simp [geminiExtractContent]
    · obtain ⟨ct⟩ := c
      rcases ct with _ | cont
      · simp [geminiExtractContent]
      · obtain ⟨pts⟩ := cont
        rcases pts with _ | pl
        · simp [geminiExtractContent]
        · rcases pl with _ | ⟨p, ps⟩
          · simp [geminiExtractContent]
          · obtain ⟨tx⟩ := p
            rcases tx with _ | t
            · simp [geminiExtractContent]
            · simp [geminiExtractContent]

/-- C4 counterexample: a candidate with `content` but no `parts` array
fails with the generic `TypeError`, not with `InvalidResponseShape`. -/
theorem c4_counterexample :
    geminiExtractContent ⟨some [⟨some ⟨none⟩⟩]⟩ = Except.error ExecError.typeError ∧
    ExecError.typeError ≠ ExecError.invalidResponseShape :=
  ⟨rfl, by decide⟩

/-- C5: for every JSON array or object value, normalizing its serialization
wrapped in a ```` ```json ```` fence, a plain ```` ``` ```` fence, or not
wrapped at all returns the serialization verbatim — so the downstream
decoder sees exactly the serialized value in all three cases. -/
theorem c5_fence_round_trip (W : Json) (h : W.isArr = true ∨ W.isObj = true) :
    cleanJsonResponse (fenceJson (stringify W)) = stringify W ∧
    cleanJsonResponse (fencePlain (stringify W)) = stringify W ∧
    cleanJsonResponse (stringify W) = stringify W := by
  rcases h with h | h
  · cases W with
    | arr xs =>
      have hst : stringify (Json.arr xs) = '[' :: (stringifyArr xs ++ [']']) := rfl
      refine ⟨?_, ?_, ?_⟩
      · unfold cleanJsonResponse
        rw [hst, stripClean_fenceJson (by decide) (by decide)]
        exact extractJson_self_arr _
      · unfold cleanJsonResponse
        rw [hst, stripClean_fencePlain (by decide) (by decide)]
        exact extractJson_self_arr _
      · rw [hst]
        exact cleanJsonResponse_bracket _
    | null => exact absurd h (by simp [Json.isArr])
    | bool b => exact absurd h (by simp [Json.isArr])
    | num n => exact absurd h (by simp [Json.isArr])
    | str s2 => exact absurd h (by simp [Json.isArr])
    | obj fs => exact absurd h (by simp [Json.isArr])
  · cases W with
    | obj fs =>
      have hst : stringify (Json.obj fs) = '\x7b' :: (stringifyObj fs ++ ['\x7d']) := rfl
      refine ⟨?_, ?_, ?_⟩
      · unfold cleanJsonResponse
        rw [hst, stripClean_fenceJson (by decide) (by decide)]
        exact extractJson_self_obj _
      · unfold cleanJsonResponse
        rw [hst, stripClean_fencePlain (by decide) (by decide)]
        exact extractJson_self_obj _
      · rw [hst]
        exact cleanJsonResponse_brace _
    | null => exact absurd h (by simp [Json.isObj])
    | bool b => exact absurd h (by simp [Json.isObj])
    | num n => exact absurd h (by simp [Json.isObj])
    | str s2 => exact absurd h (by simp [Json.isObj])
    | arr xs => exact absurd h (by simp [Json.isObj])

/-- Witness for C5 at a concrete one-element array. -/
theorem c5_fence_round_trip_witness :
    cleanJsonResponse (fenceJson (stringify (Json.arr [Json.num 1])))
      = stringify (Json.arr [Json.num 1]) ∧
    cleanJsonResponse (fencePlain (stringify (Json.arr [Json.num 1])))
      = stringify (Json.arr [Json.num 1]) ∧
    cleanJsonResponse (stringify (Json.arr [Json.num 1]))
      = stringify (Json.arr [Json.num 1]) :=
  c5_fence_round_trip (Json.arr [Json.num 1]) (Or.inl rfl)

/-- C6: position 0 is always unlocked, and a later position is unlocked
exactly when some completion record matches the previous lesson's id — a
strictly linear gating chain. -/
theorem c6_linear_unlock (lessons : List LessonRow) (completions : List CompletionRow)
    (i : Nat) (hi : 0 < i) (hlen : i - 1 < lessons.length) :
    isLessonUnlocked lessons completions 0 = some true ∧
    (isLessonUnlocked lessons completions i = some true ↔
      ∃ r ∈ completions, r.lesson_id = (lessons.get ⟨i - 1, hlen⟩).id) := by
  refine ⟨by simp [isLessonUnlocked], ?_⟩
  unfold isLessonUnlocked
  rw [if_neg (Nat.pos_iff_ne_zero.mp hi), List.get?_eq_get hlen]
  simp [isLessonCompleted, List.any_eq_true]

/-- Witness for C6 at a concrete two-lesson list. -/
theorem c6_linear_unlock_witness :
    isLessonUnlocked [⟨"a", 1⟩, ⟨"b", 1⟩] [⟨"a", some 80, 5⟩] 0 = some true ∧
    (isLessonUnlocked [⟨"a", 1⟩, ⟨"b", 1⟩] [⟨"a", some 80, 5⟩] 1 = some true ↔
      ∃ r ∈ [(⟨"a", some 80, 5⟩ : CompletionRow)],
        r.lesson_id = (([⟨"a", 1⟩, ⟨"b", 1⟩] : List LessonRow).get ⟨0, by decide⟩).id) :=
  c6_linear_unlock [⟨"a", 1⟩, ⟨"b", 1⟩] [⟨"a", some 80, 5⟩] 1 (by decide) (by decide)

/-- C7 (amended): when the cleaned text carries neither a brace span nor a
bracket span, the normalizer returns the trimmed fence-stripped text
unchanged — and the executor's check then raises `NotJson` exactly when
that text does not begin with `[` or `\x7b`, not unconditionally. -/
theorem c7_no_span_passthrough (content : List Char)
    (hobj : spanMatch '\x7b' '\x7d' (stripClean content) = none)
    (harr : spanMatch '[' ']' (stripClean content) = none) :
    cleanJsonResponse content = stripClean content ∧
    (geminiNotJsonCheck (cleanJsonResponse content) = true ↔
      (cleanJsonResponse content).head? ≠ some '[' ∧
        (cleanJsonResponse content).head? ≠ some '\x7b') := by
  have h1 : cleanJsonResponse content = stripClean content := by
    unfold cleanJsonResponse
    exact extractJson_of_none harr hobj
  exact ⟨h1, geminiNotJsonCheck_iff _⟩

/-- Witness for C7 (amended) at a prose-only input. -/
theorem c7_no_span_passthrough_witness :
    spanMatch '\x7b' '\x7d' (stripClean ("no json here".toList)) = none ∧
    spanMatch '[' ']' (stripClean ("no json here".toList)) = none ∧
    cleanJsonResponse ("no json here".toList) = stripClean ("no json here".toList) ∧
    (geminiNotJsonCheck (cleanJsonResponse ("no json here".toList)) = true ↔
      (cleanJsonResponse ("no json here".toList)).head? ≠ some '[' ∧
        (cleanJsonResponse ("no json here".toList)).head? ≠ some '\x7b') := by
  obtain ⟨h1, h2⟩ := c7_no_span_passthrough ("no json here".toList) (by decide) (by decide)
  exact ⟨by decide, by decide, h1, h2⟩

/-- C7 counterexample: on `\x7babc` no span is found and the trimmed text is
returned unchanged, but it begins with `\x7b`, so the executor's check does
not raise `NotJson` (JSON parsing fails later with `ParseError` instead). -/
theorem c7_counterexample :
    spanMatch '\x7b' '\x7d' (stripClean ("\x7babc".toList)) = none ∧
    spanMatch '[' ']' (stripClean ("\x7babc".toList)) = none ∧
    cleanJsonResponse ("\x7babc".toList) = "\x7babc".toList ∧
    geminiNotJsonCheck (cleanJsonResponse ("\x7babc".toList)) = false := by decide

/-- C8: the week progress percent computed by the code equals the spec's
`round(100 * completedInWeek / totalInWeek)` with `0` for an empty week. -/
theorem c8_week_progress (lessons : List LessonRow) (completions : List CompletionRow)
    (w : Int) :
    getWeekProgress lessons completions w
      = weekProgressPercent (lessons.filter fun l => l.week_number == w) completions := by
  simp only [getWeekProgress, weekProgressPercent]
  by_cases h : (lessons.filter fun l => l.week_number == w).length = 0
  · rw [if_neg (by omega), if_pos h]
  · rw [if_pos (by omega), if_neg h]
    congr 1
    ring

/-- C9 (amended): `getLessonScore` returns the score of the first matching
record in list order — `0` when its score is missing — and `0` when no
record matches; it does not select the most recent record. -/
theorem c9_first_match_score (lessonId : String) (l1 l2 : List CompletionRow)
    (r : CompletionRow) (h1 : ∀ x ∈ l1, x.lesson_id ≠ lessonId)
    (h2 : r.lesson_id = lessonId) :
    getLessonScore (l1 ++ r :: l2) lessonId = r.score.getD 0 ∧
    ∀ comps : List CompletionRow, (∀ x ∈ comps, x.lesson_id ≠ lessonId) →
      getLessonScore comps lessonId = 0 := by
  constructor
  · unfold getLessonScore
    have hfind : (l1 ++ r :: l2).find? (fun c => c.lesson_id == lessonId) = some r := by
      induction l1 with
      | nil => exact List.find?_cons_of_pos _ (by simp [h2])
      | cons a u ih =>
        rw [List.cons_append,
            List.find?_cons_of_neg _ (by simp [h1 a (List.mem_cons_self a u)])]
        exact ih (fun x hx => h1 x (List.mem_cons_of_mem a hx))
    rw [hfind]
  · intro comps hc
    unfold getLessonScore
    rw [List.find?_eq_none.mpr (fun x hx => by simp [hc x hx])]

/-- Witness for C9 (amended) at a concrete completions list. -/
theorem c9_first_match_score_witness :
    getLessonScore [⟨"M", some 10, 0⟩, ⟨"L", some 50, 1⟩, ⟨"L", some 90, 2⟩] "L"
      = (some (50 : ℚ)).getD 0 ∧
    ∀ comps : List CompletionRow, (∀ x ∈ comps, x.lesson_id ≠ "L") →
      getLessonScore comps "L" = 0 :=
  c9_first_match_score "L" [⟨"M", some 10, 0⟩] [⟨"L", some 90, 2⟩]
    ⟨"L", some 50, 1⟩ (by decide) rfl

/-- C9 counterexample: with an older score-50 record listed before a more
recent score-90 record for the same lesson, the code returns 50 while the
spec's most-recent-record policy returns 90. -/
theorem c9_counterexample :
    getLessonScore [⟨"L", some 50, 1⟩, ⟨"L", some 90, 2⟩] "L" = 50 ∧
    scoreForSpec [⟨"L", some 50, 1⟩, ⟨"L", some 90, 2⟩] "L" = 90 ∧
    getLessonScore [⟨"L", some 50, 1⟩, ⟨"L", some 90, 2⟩] "L"
      ≠ scoreForSpec [⟨"L", some 50, 1⟩, ⟨"L", some 90, 2⟩] "L" := by
  refine ⟨rfl, rfl, ?_⟩
  intro hcon
  have hq : (50 : ℚ) = 90 := hcon
  norm_num at hq

/-- C10 (amended): the normalizer is idempotent on every input whose
normalized form neither starts nor ends with a ```` ``` ```` fence marker
(a second pass can only differ by stripping a further fence marker). -/
theorem c10_idempotent_on_unfenced (t : List Char)
    (h1 : ("```".toList).isPrefixOf (cleanJsonResponse t) = false)
    (h2 : ("```".toList).isSuffixOf (cleanJsonResponse t) = false) :
    cleanJsonResponse (cleanJsonResponse t) = cleanJsonResponse t := by
  rcases harr : spanMatch '[' ']' (stripClean t) with _ | ⟨ai, as⟩
  · rcases hobj : spanMatch '\x7b' '\x7d' (stripClean t) with _ | ⟨oi, os⟩
    · have hres : cleanJsonResponse t = stripClean t := by
        unfold cleanJsonResponse
        exact extractJson_of_none harr hobj
      rw [hres] at h1 h2 ⊢
      unfold cleanJsonResponse
      rw [stripClean_eq_self (jsTrim_stripClean t) h1 h2]
      exact extractJson_of_none harr hobj
    · have hres : cleanJsonResponse t = os := by
        unfold cleanJsonResponse extractJson
        rw [harr, Option.elim_none, hobj, Option.elim_some]
      obtain ⟨m, rfl⟩ := spanMatch_shape hobj
      rw [hres]
      exact cleanJsonResponse_brace m
  · rcases hobj : spanMatch '\x7b' '\x7d' (stripClean t) with _ | ⟨oi, os⟩
    · have hres : cleanJsonResponse t = as := by
        unfold cleanJsonResponse extractJson
        rw [harr, Option.elim_some, hobj, Option.elim_none]
      obtain ⟨m, rfl⟩ := spanMatch_shape harr
      rw [hres]
      exact cleanJsonResponse_bracket m
    · by_cases hlt : ai < oi
      · have hres : cleanJsonResponse t = as := by
          unfold cleanJsonResponse extractJson
          rw [harr, Option.elim_some, hobj, Option.elim_some, if_pos hlt]
        obtain ⟨m, rfl⟩ := spanMatch_shape harr
        rw [hres]
        exact cleanJsonResponse_bracket m
      · have hres : cleanJsonResponse t = os := by
          unfold cleanJsonResponse extractJson
          rw [harr, Option.elim_some, hobj, Option.elim_some, if_neg hlt]
        obtain ⟨m, rfl⟩ := spanMatch_shape hobj
        rw [hres]
        exact cleanJsonResponse_brace m

/-- Witness for C10 (amended) at a concrete input whose normal form is a
brace span. -/
theorem c10_idempotent_on_unfenced_witness :
    ("```".toList).isPrefixOf (cleanJsonResponse ("x\x7b1\x7d".toList)) = false ∧
    ("```".toList).isSuffixOf (cleanJsonResponse ("x\x7b1\x7d".toList)) = false ∧
    cleanJsonResponse (cleanJsonResponse ("x\x7b1\x7d".toList))
      = cleanJsonResponse ("x\x7b1\x7d".toList) :=
  ⟨by decide, by decide, c10_idempotent_on_unfenced _ (by decide) (by decide)⟩

/-- C10 counterexample: on six backticks followed by `a` the first pass
strips one opening fence and keeps `\x60\x60\x60a`; the second pass strips
another fence, so normalize composed with itself differs from normalize. -/
theorem c10_counterexample :
    cleanJsonResponse ("``````a".toList) = "```a".toList ∧
    cleanJsonResponse (cleanJsonResponse ("``````a".toList)) = "a".toList ∧
    cleanJsonResponse (cleanJsonResponse ("``````a".toList))
      ≠ cleanJsonResponse ("``````a".toList) := by decide
